import Mathlib

/-!
Verification development for the phonetic normalization pipeline of the
line-translate-bot repository (src/app.py).

The pure transforms of the source are shallowly embedded below:
the numeral normalizer (`_four_digits_to_kanji`, `num_to_kanji`,
`_digits_to_int`, the six price patterns and `convert_prices_to_kanji`),
the reading composer (`to_hiragana`, modelled over the token stream of the
Segmenter Adapter, which is an external dependency specified for
consumption only), and the reply truncation of `reply_message`.

Modelling conventions:
  - The regular-expression character class `\d` of the price patterns is
    modelled over the ASCII digits `0`-`9`, and `\s` over the ASCII
    whitespace characters, which are the alphabets the patterns and the
    spec exercise.
  - Each price pattern is compiled to a deterministic matcher.  For these
    six patterns the compilation is exact: inside a digit run the only
    characters are digits and grouping separators, and every continuation
    of a run starts (after optional whitespace) with a currency character,
    so no backtracking into a greedy run can ever succeed; the alternation
    `\d{1,3}(?:,\d{3})+|\d+` is resolved by trying the grouped alternative
    (with its continuation) first and the plain run second, exactly as the
    engine does.
  - `re.sub` is modelled by `subAll`: scan left to right, replace the
    leftmost match, continue after it, otherwise copy one character.
-/

/-! ## Character classes (ASCII fragments of Python `\d`, `\s`) -/

def isSp (c : Char) : Bool :=
  c == ' ' || c == '\t' || c == '\n' || c == '\r' || c == '\x0b' || c == '\x0c'

/-! ## String helpers mirroring the Python operations -/

/-- `"".join(l)` of Python. -/
def concatAll : List String → String
  | [] => ""
  | s :: l => s ++ concatAll l

/-- `" ".join(l)` of Python. -/
def sepJoin : List String → String
  | [] => ""
  | [w] => w
  | w :: x :: ws => w ++ " " ++ sepJoin (x :: ws)

/-! ## Numeral normalizer: `_DIG`, `_four_digits_to_kanji`, `num_to_kanji` -/

/-- `_DIG = "零一二三四五六七八九"`. -/
def digList : List Char := ['零', '一', '二', '三', '四', '五', '六', '七', '八', '九']

/-- `_DIG[d]` as a one-character string (`d < 10` at every use site). -/
def digKanji (d : Nat) : String := String.singleton (digList.getD d '零')

/-- One iteration of the loop body of `_four_digits_to_kanji`:
`s += ("" if (u and d == 1) else _DIG[d]) + u` guarded by `if d == 0: continue`. -/
def fourStep (s : String) (u : String) (d : Nat) : String :=
  if d = 0 then s else s ++ ((if u ≠ "" ∧ d = 1 then "" else digKanji d) ++ u)

/-- `_four_digits_to_kanji(n)`: the loop runs over the reversed `_UNIT1`,
i.e. units 千, 百, 十, "" with digits `n // 10**(3-i) % 10`; the final
`return s or _DIG[0]` maps the empty string to 零. -/
def four_digits_to_kanji (n : Nat) : String :=
  let s := fourStep (fourStep (fourStep (fourStep "" "千" (n / 1000 % 10))
    "百" (n / 100 % 10)) "十" (n / 10 % 10)) "" (n % 10)
  if s = "" then digKanji 0 else s

/-- The `while num > 0 and i < len(_UNIT4)` loop of `num_to_kanji`, with the
remaining unit suffixes `_UNIT4[i:]` passed as a list.  Each pass appends
`_four_digits_to_kanji(num % 10000) + _UNIT4[i]` when the group is nonzero. -/
def numToKanjiParts : Nat → List String → List String
  | _, [] => []
  | num, u :: us =>
    if num = 0 then []
    else
      (if num % 10000 ≠ 0 then [four_digits_to_kanji (num % 10000) ++ u] else [])
        ++ numToKanjiParts (num / 10000) us

/-- `num_to_kanji(num)`: zero maps to 零; otherwise the 4-digit groups are
collected least-significant first and joined in reverse, with the final
`or _DIG[0]` fallback. -/
def num_to_kanji (num : Nat) : String :=
  if num = 0 then digKanji 0
  else
    let s := concatAll (numToKanjiParts num ["", "万", "億", "兆"]).reverse
    if s = "" then digKanji 0 else s

/-! ## Price patterns -/

/-- `_digits_to_int(s) = int(re.sub(r"[^\d]", "", s))`: strip every
non-digit and read the remaining decimal digits. -/
def digits_to_int (l : List Char) : Nat :=
  (l.filter Char.isDigit).foldl (fun a c => 10 * a + (c.toNat - 48)) 0

/-- Greedy `(?:SEP\d{3})+` tail: consume as many (separator, three digits)
groups as possible, returning the consumed characters and the rest. -/
def sepGroups (sep : Char → Bool) : List Char → List Char × List Char
  | s :: a :: b :: c :: rest =>
    if sep s && a.isDigit && b.isDigit && c.isDigit then
      let p := sepGroups sep rest
      (s :: a :: b :: c :: p.1, p.2)
    else ([], s :: a :: b :: c :: rest)
  | l => ([], l)

/-- The grouped alternative `\d{1,3}(?:SEP\d{3})+`: it succeeds exactly when
the leading digit run has length 1 to 3 and at least one separator group
follows (with more than three leading digits every choice of `{1,3}` leaves
a digit where the separator is required, so the alternative fails). -/
def groupedRun (sep : Char → Bool) (l : List Char) : Option (List Char × List Char) :=
  let ds := l.takeWhile Char.isDigit
  let rest := l.dropWhile Char.isDigit
  if ds.isEmpty || decide (ds.length > 3) then none
  else
    let p := sepGroups sep rest
    if p.1.isEmpty then none else some (ds ++ p.1, p.2)

/-- The plain alternative `\d+` (greedy). -/
def plainRun (l : List Char) : Option (List Char × List Char) :=
  let ds := l.takeWhile Char.isDigit
  if ds.isEmpty then none else some (ds, l.dropWhile Char.isDigit)

/-- The full digit-run alternation when it ends the pattern: the grouped
alternative is preferred, the plain run is the fallback. -/
def digitRun (sep : Char → Bool) (l : List Char) : Option (List Char × List Char) :=
  (groupedRun sep l).orElse fun _ => plainRun l

/-- Literal `円`. -/
def yenTail : List Char → Option (List Char)
  | '円' :: r => some r
  | _ => none

/-- Literal alternation `(?:VND|vnd)` (these two exact casings only). -/
def vndTail : List Char → Option (List Char)
  | 'V' :: 'N' :: 'D' :: r => some r
  | 'v' :: 'n' :: 'd' :: r => some r
  | _ => none

/-- Character class `[₫đ]`. -/
def dongTail : List Char → Option (List Char)
  | c :: r => if c == '₫' || c == 'đ' then some r else none
  | [] => none

/-- Literal `¥`. -/
def yenHead : List Char → Option (List Char)
  | '¥' :: r => some r
  | _ => none

/-- A prefix pattern `HEAD\s*RUN`: currency marker, optional whitespace,
then the digit-run alternation, which ends the pattern. -/
def prefixPat (head : List Char → Option (List Char)) (sep : Char → Bool)
    (repl : List Char → String) (l : List Char) : Option (String × List Char) :=
  match head l with
  | none => none
  | some t =>
    match digitRun sep (t.dropWhile isSp) with
    | some (run, rest) => some (repl run, rest)
    | none => none

/-- Continuation `\s*TAIL` after a digit run of a suffix pattern. -/
def runCont (tail : List Char → Option (List Char)) (repl : List Char → String)
    (run : List Char) (rest : List Char) : Option (String × List Char) :=
  match tail (rest.dropWhile isSp) with
  | some rest2 => some (repl run, rest2)
  | none => none

/-- A suffix pattern `RUN\s*TAIL`: the grouped alternative with its
continuation is tried first, then the plain run with the continuation,
matching the backtracking order of the engine. -/
def suffixPat (sep : Char → Bool) (tail : List Char → Option (List Char))
    (repl : List Char → String) (l : List Char) : Option (String × List Char) :=
  (match groupedRun sep l with
    | some (run, rest) => runCont tail repl run rest
    | none => none).orElse fun _ =>
  match plainRun l with
  | some (run, rest) => runCont tail repl run rest
  | none => none

/-- Replacement `f"{num_to_kanji(_digits_to_int(run))}円"`. -/
def yenRepl (run : List Char) : String := num_to_kanji (digits_to_int run) ++ "円"

/-- Replacement `f"{num_to_kanji(_digits_to_int(run))}ドン"`. -/
def dongRepl (run : List Char) : String := num_to_kanji (digits_to_int run) ++ "ドン"

def commaSep (c : Char) : Bool := c == ','

def commaDotSep (c : Char) : Bool := c == ',' || c == '.'

/-- `_price_patterns[0]`: `(¥)\s*(\d{1,3}(?:,\d{3})+|\d+)` with `yen_symbol_sub`. -/
def pat1 : List Char → Option (String × List Char) := prefixPat yenHead commaSep yenRepl

/-- `_price_patterns[1]`: `(\d{1,3}(?:,\d{3})+|\d+)\s*円` with `yen_after_sub`. -/
def pat2 : List Char → Option (String × List Char) := suffixPat commaSep yenTail yenRepl

/-- `_price_patterns[2]`: `(?:VND|vnd)\s*(\d{1,3}(?:[.,]\d{3})+|\d+)` with `vnd_prefix_sub`. -/
def pat3 : List Char → Option (String × List Char) := prefixPat vndTail commaDotSep dongRepl

/-- `_price_patterns[3]`: `(\d{1,3}(?:[.,]\d{3})+|\d+)\s*(?:VND|vnd)` with `vnd_after_sub`. -/
def pat4 : List Char → Option (String × List Char) := suffixPat commaDotSep vndTail dongRepl

/-- `_price_patterns[4]`: `[₫đ]\s*(\d{1,3}(?:[.,]\d{3})+|\d+)` with `dong_prefix`. -/
def pat5 : List Char → Option (String × List Char) := prefixPat dongTail commaDotSep dongRepl

/-- `_price_patterns[5]`: `(\d{1,3}(?:[.,]\d{3})+|\d+)\s*[₫đ]` with `dong_after`. -/
def pat6 : List Char → Option (String × List Char) := suffixPat commaDotSep dongTail dongRepl

/-- One `re.sub` pass: scan left to right, replace each leftmost match and
continue after it, copy the character otherwise.  The fuel argument is the
length of the list; every match consumes at least one character, so the
fuel never runs out. -/
def subAllAux (m : List Char → Option (String × List Char)) : Nat → List Char → List Char
  | 0, l => l
  | _ + 1, [] => []
  | fuel + 1, c :: cs =>
    match m (c :: cs) with
    | some (rep, rest) => rep.data ++ subAllAux m fuel rest
    | none => c :: subAllAux m fuel cs

def subAll (m : List Char → Option (String × List Char)) (s : String) : String :=
  ⟨subAllAux m s.data.length s.data⟩

/-- `convert_prices_to_kanji(text)`: the six substitution passes applied in
the fixed order of `_price_patterns`. -/
def convert_prices_to_kanji (text : String) : String :=
  subAll pat6 (subAll pat5 (subAll pat4 (subAll pat3 (subAll pat2 (subAll pat1 text)))))

/-! ## Reading composer

The morphological tokenizer (`_sudachi.tokenize`) is an external
dependency, specified for consumption only (spec 4.2): a token exposes its
surface, its coarse part-of-speech head `part_of_speech()[0]`, and its
reading form with `*` as the unknown sentinel.  The composer is therefore
embedded over an explicit token stream, and the full `to_hiragana` over a
tokenizing function passed as the external resource. -/

structure MToken where
  surface : String
  pos0 : String
  reading : String
deriving DecidableEq, Repr

/-- `str.maketrans({chr(k): chr(k - 0x60) for k in range(ord("ァ"), ord("ヶ") + 1)})`
applied with `str.translate`: every code point in the katakana block
ァ..ヶ is shifted down by 0x60 to its hiragana counterpart, every other
character is left unchanged. -/
def kataToHira (s : String) : String :=
  ⟨s.data.map fun c =>
    if 'ァ' ≤ c ∧ c ≤ 'ヶ' then Char.ofNat (c.toNat - 0x60) else c⟩

/-- `re.fullmatch(r"[0-9A-Za-z]+", surf)`: nonempty and ASCII alphanumeric. -/
def isAlnumRun (s : String) : Bool :=
  !s.data.isEmpty && s.data.all Char.isAlphanum

/-- The loop body of `to_hiragana` for one token: symbol and punctuation
categories keep their surface, ASCII alphanumeric runs keep their surface,
the `*` reading sentinel keeps the surface, otherwise the reading is
converted katakana to hiragana. -/
def chunkOf (t : MToken) : String :=
  if t.pos0 = "記号" ∨ t.pos0 = "補助記号" then t.surface
  else if isAlnumRun t.surface then t.surface
  else if t.reading = "*" then t.surface
  else kataToHira t.reading

/-- The tail of `to_hiragana` on an already tokenized text:
`" ".join(words) if spaced else "".join(words)`. -/
def composeTokens (tokens : List MToken) (spaced : Bool) : String :=
  let words := tokens.map chunkOf
  if spaced then sepJoin words else concatAll words

/-- `to_hiragana(text, spaced)`, with the external tokenizer passed in:
prices are rewritten first, the result is tokenized, and the chunks are
joined. -/
def to_hiragana (tokenize : String → List MToken) (text : String) (spaced : Bool) : String :=
  composeTokens (tokenize (convert_prices_to_kanji text)) spaced

/-- Space-delimited word count of a spaced output (empty words dropped,
as `str.split` of Python does for counting purposes). -/
def wordsOf (s : String) : List String :=
  ((s.data.splitOn ' ').map fun l => (⟨l⟩ : String)).filter fun w => w ≠ ""

/-! ## Reply transport: the message text of `reply_message` -/

/-- Python slice `text[:4900]`: the first 4900 code points. -/
def pySlice (s : String) (n : Nat) : String := ⟨s.data.take n⟩

/-- The `messages` array built by `reply_message`: a single text message
whose text is `text[:4900]`. -/
def reply_messages (text : String) : List String := [pySlice text 4900]

/-! ## Spec-side definitions for the refinement claims

These two definitions follow the words of the spec (4.1, kanji numeral
conversion), to be compared with `num_to_kanji` as embedded from the
source: within a group the three place units thousand/hundred/ten emit the
digit-kanji unless the digit is zero, eliding the digit-kanji 一 when a
place unit character follows (the ones digit has no following unit and is
emitted whenever nonzero); the integer is decomposed into 4-digit groups,
least-significant first, with unit suffixes none, 万, 億, 兆; zero groups
contribute nothing, and the remaining groups are assembled from most- to
least-significant. -/

def specPlace (d : Nat) (u : String) : String :=
  if d = 0 then "" else (if d = 1 then "" else digKanji d) ++ u

def specFourDigits (g : Nat) : String :=
  specPlace (g / 1000 % 10) "千" ++ specPlace (g / 100 % 10) "百"
    ++ specPlace (g / 10 % 10) "十" ++ (if g % 10 = 0 then "" else digKanji (g % 10))

def specGroups (n : Nat) : List (Nat × String) :=
  [(n % 10000, ""), (n / 10000 % 10000, "万"),
   (n / 100000000 % 10000, "億"), (n / 1000000000000 % 10000, "兆")]

def numToKanjiSpec (n : Nat) : String :=
  if n = 0 then "零"
  else
    concatAll ((((specGroups n).filter fun p => p.1 ≠ 0).reverse).map
      fun p => specFourDigits p.1 ++ p.2)

/-! ## A concrete tokenizer exhibit

A tokenizing function satisfying the contract of spec 4.2 (ordered, covers
the whole input, no gaps, no overlaps; hiragana readings are the katakana
counterparts, whitespace is its own token with the unknown sentinel).  It
is used to instantiate theorems that quantify over the external tokenizer
and to refute claims that fail for contract-satisfying tokenizers. -/

def toKataChar (c : Char) : Char :=
  if 'ぁ' ≤ c ∧ c ≤ 'ゖ' then Char.ofNat (c.toNat + 0x60) else c

def exTokenize (s : String) : List MToken :=
  s.data.map fun c =>
    if c = ' ' then ⟨" ", "空白", "*"⟩
    else ⟨String.singleton c, "名詞", String.singleton (toKataChar c)⟩

/-! ## Concrete token streams used by individual claims -/

/-- A plausible tokenization of `"こんにちは!! (^^)"`. -/
def c3Tokens : List MToken :=
  [⟨"こんにちは", "感動詞", "コンニチハ"⟩, ⟨"!", "補助記号", "*"⟩, ⟨"!", "補助記号", "*"⟩,
   ⟨" ", "空白", "*"⟩, ⟨"(", "補助記号", "*"⟩, ⟨"^^", "補助記号", "*"⟩, ⟨")", "補助記号", "*"⟩]

/-- A content token followed by two auxiliary-tagged (助動詞) tokens. -/
def c4Tokens : List MToken :=
  [⟨"食べ", "動詞", "タベ"⟩, ⟨"まし", "助動詞", "マシ"⟩, ⟨"た", "助動詞", "タ"⟩]

/-- A content token followed by a terminal punctuation token. -/
def c5aTokens : List MToken :=
  [⟨"こんにちは", "感動詞", "コンニチハ"⟩, ⟨"。", "補助記号", "*"⟩]

/-- Two content tokens separated by a three-space whitespace token. -/
def c5bTokens : List MToken :=
  [⟨"あ", "感動詞", "ア"⟩, ⟨"   ", "空白", "*"⟩, ⟨"い", "感動詞", "イ"⟩]

/-! ## Observers used to state whitespace and punctuation properties -/

/-- Some two consecutive characters are both whitespace. -/
def hasDoubleSpace : List Char → Bool
  | a :: b :: r => (isSp a && isSp b) || hasDoubleSpace (b :: r)
  | _ => false

/-- Some space character immediately precedes one of 、。！？!? -/
def spaceBeforeTerminal : List Char → Bool
  | a :: b :: r =>
    (a == ' ' && (b == '、' || b == '。' || b == '！' || b == '？' || b == '!' || b == '?'))
      || spaceBeforeTerminal (b :: r)
  | _ => false

/-- The 4-digit groups of a number paired with the given unit suffixes,
least-significant first (proof-side view of the `num_to_kanji` loop). -/
def groupsOf : Nat → List String → List (Nat × String)
  | _, [] => []
  | num, u :: us => (num % 10000, u) :: groupsOf (num / 10000) us

/-! # Theorems -/

/-! ## Generic string and list lemmas -/

theorem strMk_data (s : String) : (⟨s.data⟩ : String) = s := by
  cases s
  rfl

theorem strData_append (a b : String) : (a ++ b).data = a.data ++ b.data := by
  cases a
  cases b
  rfl

theorem strAppend_empty (s : String) : s ++ "" = s := by
  cases s
  show String.mk _ = _
  simp [String.append]

theorem strEmpty_append (s : String) : "" ++ s = s := by
  cases s
  show String.mk _ = _
  simp [String.append]

theorem strAppend_assoc (a b c : String) : a ++ b ++ c = a ++ (b ++ c) := by
  cases a
  cases b
  cases c
  show String.mk _ = String.mk _
  simp [String.append]

theorem str_eq_empty_iff (s : String) : s = "" ↔ s.data = [] := by
  constructor
  · intro h
    rw [h]
  · intro h
    cases s with
    | mk d =>
      have hd : d = [] := h
      rw [hd]

theorem mapCongrOn {α β : Type} (l : List α) (f g : α → β)
    (h : ∀ a ∈ l, f a = g a) : l.map f = l.map g := by
  induction l with
  | nil => rfl
  | cons a l ih =>
    simp only [List.map_cons]
    rw [h a (List.mem_cons_self a l), ih fun b hb => h b (List.mem_cons_of_mem a hb)]

theorem concatAll_ne_empty {l : List String} {s : String} (hs : s ∈ l) (h : s ≠ "") :
    concatAll l ≠ "" := by
  induction l with
  | nil => exact absurd hs (List.not_mem_nil s)
  | cons a l ih =>
    intro hE
    rw [str_eq_empty_iff, show concatAll (a :: l) = a ++ concatAll l from rfl,
      strData_append, List.append_eq_nil] at hE
    rcases List.mem_cons.mp hs with hsa | hsl
    · exact h (by rw [hsa, str_eq_empty_iff]; exact hE.1)
    · exact ih hsl ((str_eq_empty_iff _).mpr hE.2)

/-! ## Digit-free texts pass through every price pattern unchanged -/

theorem takeWhile_digit_nil {l : List Char} (h : ∀ c ∈ l, c.isDigit = false) :
    l.takeWhile Char.isDigit = [] := by
  cases l with
  | nil => rfl
  | cons c cs =>
    simp [List.takeWhile_cons, h c (List.mem_cons_self c cs)]

theorem noDig_dropWhile {l : List Char} (p : Char → Bool)
    (h : ∀ c ∈ l, c.isDigit = false) : ∀ c ∈ l.dropWhile p, c.isDigit = false :=
  fun c hc => h c ((List.dropWhile_sublist p).subset hc)

theorem groupedRun_none (sep : Char → Bool) {l : List Char}
    (h : ∀ c ∈ l, c.isDigit = false) : groupedRun sep l = none := by
  simp [groupedRun, takeWhile_digit_nil h]

theorem plainRun_none {l : List Char}
    (h : ∀ c ∈ l, c.isDigit = false) : plainRun l = none := by
  simp [plainRun, takeWhile_digit_nil h]

theorem digitRun_none (sep : Char → Bool) {l : List Char}
    (h : ∀ c ∈ l, c.isDigit = false) : digitRun sep l = none := by
  simp [digitRun, groupedRun_none sep h, plainRun_none h, Option.orElse]

theorem yenHead_mem {l t : List Char} (h : yenHead l = some t) : ∀ c ∈ t, c ∈ l := by
  unfold yenHead at h
  split at h
  · injection h with h
    subst h
    exact fun c hc => List.mem_cons_of_mem _ hc
  · exact absurd h (by simp)

theorem vndTail_mem {l t : List Char} (h : vndTail l = some t) : ∀ c ∈ t, c ∈ l := by
  unfold vndTail at h
  split at h
  · injection h with h
    subst h
    exact fun c hc => List.mem_cons_of_mem _ (List.mem_cons_of_mem _ (List.mem_cons_of_mem _ hc))
  · injection h with h
    subst h
    exact fun c hc => List.mem_cons_of_mem _ (List.mem_cons_of_mem _ (List.mem_cons_of_mem _ hc))
  · exact absurd h (by simp)

theorem dongTail_mem {l t : List Char} (h : dongTail l = some t) : ∀ c ∈ t, c ∈ l := by
  unfold dongTail at h
  split at h
  · split at h
    · injection h with h
      subst h
      exact fun c hc => List.mem_cons_of_mem _ hc
    · exact absurd h (by simp)
  · exact absurd h (by simp)

theorem prefixPat_none (head : List Char → Option (List Char)) (sep : Char → Bool)
    (repl : List Char → String) {l : List Char}
    (hmem : ∀ t, head l = some t → ∀ c ∈ t, c ∈ l)
    (h : ∀ c ∈ l, c.isDigit = false) : prefixPat head sep repl l = none := by
  unfold prefixPat
  split
  · rfl
  · rename_i t ht
    rw [digitRun_none sep (noDig_dropWhile isSp fun c hc => h c (hmem t ht c hc))]

theorem suffixPat_none (sep : Char → Bool) (tail : List Char → Option (List Char))
    (repl : List Char → String) {l : List Char}
    (h : ∀ c ∈ l, c.isDigit = false) : suffixPat sep tail repl l = none := by
  unfold suffixPat
  rw [groupedRun_none sep h, plainRun_none h]
  rfl

theorem pat_none_of_noDig {l : List Char} (h : ∀ c ∈ l, c.isDigit = false) :
    pat1 l = none ∧ pat2 l = none ∧ pat3 l = none ∧ pat4 l = none
      ∧ pat5 l = none ∧ pat6 l = none :=
  ⟨prefixPat_none _ _ _ (fun _ ht => yenHead_mem ht) h,
   suffixPat_none _ _ _ h,
   prefixPat_none _ _ _ (fun _ ht => vndTail_mem ht) h,
   suffixPat_none _ _ _ h,
   prefixPat_none _ _ _ (fun _ ht => dongTail_mem ht) h,
   suffixPat_none _ _ _ h⟩

theorem subAllAux_id (m : List Char → Option (String × List Char))
    (hm : ∀ l, (∀ c ∈ l, c.isDigit = false) → m l = none) :
    ∀ (fuel : Nat) (l : List Char), (∀ c ∈ l, c.isDigit = false) →
      subAllAux m fuel l = l := by
  intro fuel
  induction fuel with
  | zero => intro l _; rfl
  | succ n ih =>
    intro l hl
    cases l with
    | nil => rfl
    | cons c cs =>
      rw [subAllAux, hm (c :: cs) hl]
      rw [ih cs fun d hd => hl d (List.mem_cons_of_mem c hd)]

theorem subAll_id (m : List Char → Option (String × List Char))
    (hm : ∀ l, (∀ c ∈ l, c.isDigit = false) → m l = none)
    (s : String) (h : ∀ c ∈ s.data, c.isDigit = false) : subAll m s = s := by
  unfold subAll
  rw [subAllAux_id m hm _ _ h]

theorem convert_prices_id (s : String) (h : ∀ c ∈ s.data, c.isDigit = false) :
    convert_prices_to_kanji s = s := by
  unfold convert_prices_to_kanji
  rw [subAll_id pat1 (fun l hl => (pat_none_of_noDig hl).1) s h,
    subAll_id pat2 (fun l hl => (pat_none_of_noDig hl).2.1) s h,
    subAll_id pat3 (fun l hl => (pat_none_of_noDig hl).2.2.1) s h,
    subAll_id pat4 (fun l hl => (pat_none_of_noDig hl).2.2.2.1) s h,
    subAll_id pat5 (fun l hl => (pat_none_of_noDig hl).2.2.2.2.1) s h,
    subAll_id pat6 (fun l hl => (pat_none_of_noDig hl).2.2.2.2.2) s h]

/-! ## The kanji numeral conversion against the words of the spec -/

theorem fourStep_eq (s u : String) (d : Nat) :
    fourStep s u d
      = s ++ (if d = 0 then "" else (if u ≠ "" ∧ d = 1 then "" else digKanji d) ++ u) := by
  unfold fourStep
  by_cases h : d = 0
  · simp [h, strAppend_empty]
  · simp [h]

theorem place_unit_eq (u : String) (hu : u ≠ "") (d : Nat) :
    (if d = 0 then "" else (if u ≠ "" ∧ d = 1 then "" else digKanji d) ++ u)
      = specPlace d u := by
  unfold specPlace
  by_cases h : d = 0
  · simp [h]
  · simp [h, hu]

theorem place_ones_eq (d : Nat) :
    (if d = 0 then "" else (if ("" : String) ≠ "" ∧ d = 1 then "" else digKanji d) ++ "")
      = (if d = 0 then "" else digKanji d) := by
  by_cases h : d = 0
  · simp [h]
  · simp [h, strAppend_empty]

theorem digKanji_len (d : Nat) : (digKanji d).data.length = 1 := rfl

theorem specPlace_len_pos (d : Nat) (u : String) (hd : d ≠ 0) (hu : u.data.length = 1) :
    0 < (specPlace d u).data.length := by
  unfold specPlace
  rw [if_neg hd, strData_append, List.length_append, hu]
  omega

theorem specFourDigits_ne (g : Nat) (h0 : g ≠ 0) (h4 : g < 10000) :
    specFourDigits g ≠ "" := by
  intro hE
  have hlen : (specFourDigits g).data.length = 0 := by
    rw [hE]
    rfl
  unfold specFourDigits at hlen
  rw [strData_append, strData_append, strData_append, List.length_append,
    List.length_append, List.length_append] at hlen
  have hcase : g / 1000 % 10 ≠ 0 ∨ g / 100 % 10 ≠ 0 ∨ g / 10 % 10 ≠ 0 ∨ g % 10 ≠ 0 := by
    omega
  rcases hcase with h | h | h | h
  · have := specPlace_len_pos _ "千" h (by decide)
    omega
  · have := specPlace_len_pos _ "百" h (by decide)
    omega
  · have := specPlace_len_pos _ "十" h (by decide)
    omega
  · have : 0 < (if g % 10 = 0 then "" else digKanji (g % 10)).data.length := by
      rw [if_neg h, digKanji_len]
      omega
    omega

theorem four_eq_spec (g : Nat) (h0 : g ≠ 0) (h4 : g < 10000) :
    four_digits_to_kanji g = specFourDigits g := by
  have hs : fourStep (fourStep (fourStep (fourStep "" "千" (g / 1000 % 10))
      "百" (g / 100 % 10)) "十" (g / 10 % 10)) "" (g % 10) = specFourDigits g := by
    rw [fourStep_eq, fourStep_eq, fourStep_eq, fourStep_eq]
    rw [place_unit_eq "千" (by decide), place_unit_eq "百" (by decide),
      place_unit_eq "十" (by decide), place_ones_eq]
    rw [strEmpty_append]
    rfl
  unfold four_digits_to_kanji
  rw [hs]
  exact if_neg (specFourDigits_ne g h0 h4)

theorem groupsOf_zero_filter (us : List String) :
    (groupsOf 0 us).filter (fun p => p.1 ≠ 0) = [] := by
  induction us with
  | nil => rfl
  | cons u us ih =>
    rw [groupsOf, List.filter_cons,
      if_neg (by simp : ¬decide (((0 : Nat) % 10000, u).1 ≠ 0) = true)]
    exact ih

theorem parts_eq (us : List String) : ∀ num : Nat,
    numToKanjiParts num us
      = ((groupsOf num us).filter fun p => p.1 ≠ 0).map
          fun p => four_digits_to_kanji p.1 ++ p.2 := by
  induction us with
  | nil => intro num; rfl
  | cons u us ih =>
    intro num
    by_cases h : num = 0
    · subst h
      rw [groupsOf_zero_filter]
      rfl
    · rw [numToKanjiParts, if_neg h, groupsOf, List.filter_cons]
      by_cases h2 : num % 10000 = 0
      · simp [h2, ih]
      · simp [h2, ih]

theorem groupsOf_units (n : Nat) : groupsOf n ["", "万", "億", "兆"] = specGroups n := by
  simp only [groupsOf, specGroups, Nat.div_div_eq_div_mul]

theorem groupsOf_mod (n : Nat) :
    groupsOf (n % 10000000000000000) ["", "万", "億", "兆"]
      = groupsOf n ["", "万", "億", "兆"] := by
  have e1 : n % 10000000000000000 % 10000 = n % 10000 := by omega
  have e2 : n % 10000000000000000 / 10000 % 10000 = n / 10000 % 10000 := by omega
  have e3 : n % 10000000000000000 / 10000 / 10000 % 10000 = n / 10000 / 10000 % 10000 := by
    omega
  have e4 : n % 10000000000000000 / 10000 / 10000 / 10000 % 10000
      = n / 10000 / 10000 / 10000 % 10000 := by omega
  simp [groupsOf, e1, e2, e3, e4]

/-! ## Composer lemmas -/

theorem chunk_symbol (t : MToken) (h : t.pos0 = "補助記号") : chunkOf t = t.surface := by
  simp [chunkOf, h]

theorem sepJoin_append_last : ∀ (ws : List String) (w : String), ws ≠ [] →
    sepJoin (ws ++ [w]) = sepJoin ws ++ " " ++ w := by
  intro ws
  induction ws with
  | nil => intro w h; exact absurd rfl h
  | cons x ws ih =>
    intro w _
    cases ws with
    | nil => rfl
    | cons y ys =>
      have hxy : sepJoin (y :: ys ++ [w]) = sepJoin (y :: ys) ++ " " ++ w :=
        ih w (by simp)
      show x ++ " " ++ sepJoin (y :: ys ++ [w]) = x ++ " " ++ sepJoin (y :: ys) ++ " " ++ w
      rw [hxy]
      simp [strAppend_assoc]

/-! # Claim theorems -/

/-- Claim C1: `convert_prices_to_kanji` applies the six currency patterns
as whole-text substitution passes in the fixed priority order yen-symbol,
yen-suffix, VND-prefix, VND-suffix, dong-symbol-prefix, dong-symbol-suffix,
replacing each match by the kanji numeral of its separator-stripped digit
run followed immediately by the currency word (円 for yen, ドン for
VND/dong); text containing no digit is left entirely unchanged, and the
three canonical examples rewrite as the spec states. -/
theorem convert_prices_contract :
    (∀ s : String,
      convert_prices_to_kanji s
        = subAll pat6 (subAll pat5 (subAll pat4 (subAll pat3 (subAll pat2 (subAll pat1 s))))))
    ∧ (∀ s : String, (∀ c ∈ s.data, c.isDigit = false) → convert_prices_to_kanji s = s)
    ∧ convert_prices_to_kanji "¥12,345" = "一万二千三百四十五円"
    ∧ convert_prices_to_kanji "0 VND" = "零ドン"
    ∧ convert_prices_to_kanji "1000円" = "千円" :=
  ⟨fun _ => rfl, convert_prices_id, by decide, by decide, by decide⟩

/-- Witness for C1: a digit-free text containing currency markers passes
through unchanged. -/
theorem convert_prices_contract_witness :
    (∀ c ∈ ("¥ほ円 vndドンđ".data), c.isDigit = false)
      ∧ convert_prices_to_kanji "¥ほ円 vndドンđ" = "¥ほ円 vndドンđ" :=
  ⟨by decide, convert_prices_contract.2.1 "¥ほ円 vndドンđ" (by decide)⟩

/-- Claim C2: for every `n` below ten to the sixteenth, `num_to_kanji n`
equals the spec-side conversion: zero maps to 零, otherwise the 4-digit
groups (least-significant first, unit suffixes none 万 億 兆) are rendered
with the three place units 千 百 十 eliding the digit-kanji 一 before a
place unit, zero digits and zero groups contributing nothing, groups
assembled most-significant first. -/
theorem num_to_kanji_matches_spec :
    ∀ n : Nat, n < 10 ^ 16 → num_to_kanji n = numToKanjiSpec n := by
  intro n hn
  have hn' : n < 10000000000000000 := by
    norm_num at hn
    exact hn
  by_cases h0 : n = 0
  · subst h0
    decide
  · unfold num_to_kanji numToKanjiSpec
    rw [if_neg h0, if_neg h0]
    rw [parts_eq, groupsOf_units]
    have hmap :
        (((specGroups n).filter fun p => p.1 ≠ 0).map
            fun p => four_digits_to_kanji p.1 ++ p.2)
          = ((specGroups n).filter fun p => p.1 ≠ 0).map
              fun p => specFourDigits p.1 ++ p.2 := by
      apply mapCongrOn
      intro p hp
      have hmem := List.mem_of_mem_filter hp
      have hne : p.1 ≠ 0 := by
        have := List.of_mem_filter hp
        simpa using this
      have hlt : p.1 < 10000 := by
        simp only [specGroups, List.mem_cons, List.not_mem_nil, or_false] at hmem
        rcases hmem with h | h | h | h <;>
          (subst h; exact Nat.mod_lt _ (by norm_num))
      rw [four_eq_spec p.1 hne hlt]
    rw [hmap, ← List.map_reverse]
    have hex : ∃ p, p ∈ (specGroups n).filter fun p => p.1 ≠ 0 := by
      by_contra hno
      push_neg at hno
      have hall : ∀ p ∈ specGroups n, p.1 = 0 := by
        intro p hp
        by_contra hne
        exact hno p (List.mem_filter.mpr ⟨hp, by simpa using hne⟩)
      have e1 := hall (n % 10000, "") (by simp [specGroups])
      have e2 := hall (n / 10000 % 10000, "万") (by simp [specGroups])
      have e3 := hall (n / 100000000 % 10000, "億") (by simp [specGroups])
      have e4 := hall (n / 1000000000000 % 10000, "兆") (by simp [specGroups])
      simp only at e1 e2 e3 e4
      omega
    obtain ⟨p, hp⟩ := hex
    have hne : p.1 ≠ 0 := by
      have := List.of_mem_filter hp
      simpa using this
    have hlt : p.1 < 10000 := by
      have hmem := List.mem_of_mem_filter hp
      simp only [specGroups, List.mem_cons, List.not_mem_nil, or_false] at hmem
      rcases hmem with h | h | h | h <;>
        (subst h; exact Nat.mod_lt _ (by norm_num))
    have hmem2 : specFourDigits p.1 ++ p.2
        ∈ (((specGroups n).filter fun p => p.1 ≠ 0).reverse).map
            fun p => specFourDigits p.1 ++ p.2 :=
      List.mem_map_of_mem _ (List.mem_reverse.mpr hp)
    have hne2 : specFourDigits p.1 ++ p.2 ≠ "" := by
      intro hE
      rw [str_eq_empty_iff, strData_append, List.append_eq_nil] at hE
      exact specFourDigits_ne p.1 hne hlt ((str_eq_empty_iff _).mpr hE.1)
    exact if_neg (concatAll_ne_empty hmem2 hne2)

/-- Witness for C2: the conversion and the spec agree at 12345. -/
theorem num_to_kanji_matches_spec_witness :
    (12345 < 10 ^ 16) ∧ num_to_kanji 12345 = numToKanjiSpec 12345 :=
  ⟨by norm_num, num_to_kanji_matches_spec 12345 (by norm_num)⟩

/-- Claim C3: the compact composition is exactly the in-order concatenation
of one chunk per token, and every chunk is either the token surface
verbatim or the katakana-to-hiragana image of its reading — no characters
are invented or dropped; in particular a plausible tokenization of
"こんにちは!! (^^)" reproduces the symbol run "!! (^^)" verbatim. -/
theorem composer_conservation :
    (∀ tokens : List MToken,
      composeTokens tokens false = concatAll (tokens.map chunkOf)
        ∧ ∀ t ∈ tokens, chunkOf t = t.surface ∨ chunkOf t = kataToHira t.reading)
    ∧ composeTokens c3Tokens false = "こんにちは!! (^^)"
    ∧ ("こんにちは".data ++ "!! (^^)".data ++ ([] : List Char)
        = (composeTokens c3Tokens false).data) := by
  refine ⟨fun tokens => ⟨rfl, fun t _ => ?_⟩, by decide, by decide⟩
  unfold chunkOf
  split
  · exact Or.inl rfl
  · split
    · exact Or.inl rfl
    · split
      · exact Or.inl rfl
      · exact Or.inr rfl

/-- Witness for C3: the first token of the example stream is converted to
its own chunk, surface or reading substitute. -/
theorem composer_conservation_witness :
    chunkOf ⟨"こんにちは", "感動詞", "コンニチハ"⟩ = "こんにちは"
      ∨ chunkOf ⟨"こんにちは", "感動詞", "コンニチハ"⟩ = kataToHira "コンニチハ" :=
  (composer_conservation.1 c3Tokens).2 ⟨"こんにちは", "感動詞", "コンニチハ"⟩ (by decide)

/-- Counterexample to C4: a content token followed by two
auxiliary-tagged (助動詞) tokens yields three space-delimited words in
spaced mode, not the single merged chunk the claim requires. -/
theorem aux_merge_cex :
    composeTokens c4Tokens true = "たべ まし た"
      ∧ (wordsOf (composeTokens c4Tokens true)).length = 3
      ∧ ¬(wordsOf (composeTokens c4Tokens true)).length = 1 := by
  refine ⟨by decide, by decide, by decide⟩

/-- Claim C4 (amended): the composer performs no auxiliary lookahead merge;
every token, auxiliary-tagged or not, contributes its own chunk, so a
content token followed by two auxiliary-tagged tokens produces three
space-separated chunks in spaced mode. -/
theorem aux_no_merge :
    ∀ t a1 a2 : MToken, a1.pos0 = "助動詞" → a2.pos0 = "助動詞" →
      composeTokens [t, a1, a2] true
        = chunkOf t ++ " " ++ (chunkOf a1 ++ " " ++ chunkOf a2) := by
  intro t a1 a2 _ _
  rfl

/-- Witness for C4 (amended): the merge-free shape at the concrete stream. -/
theorem aux_no_merge_witness :
    composeTokens c4Tokens true
      = chunkOf ⟨"食べ", "動詞", "タベ"⟩ ++ " "
          ++ (chunkOf ⟨"まし", "助動詞", "マシ"⟩ ++ " " ++ chunkOf ⟨"た", "助動詞", "タ"⟩) :=
  aux_no_merge ⟨"食べ", "動詞", "タベ"⟩ ⟨"まし", "助動詞", "マシ"⟩ ⟨"た", "助動詞", "タ"⟩ rfl rfl

/-- Counterexample to C5: in spaced mode a space is inserted before the
terminal punctuation 。, and the three-space surface of a whitespace token
survives, so the output contains a whitespace run of length at least two. -/
theorem spaced_mode_cex :
    composeTokens c5aTokens true = "こんにちは 。"
      ∧ spaceBeforeTerminal (composeTokens c5aTokens true).data = true
      ∧ composeTokens c5bTokens true = "あ     い"
      ∧ hasDoubleSpace (composeTokens c5bTokens true).data = true := by
  refine ⟨by decide, by decide, by decide, by decide⟩

/-- Claim C5 (amended): spaced mode simply joins consecutive chunks with a
single space: the space before a trailing punctuation chunk is never
removed, and whitespace inside token surfaces is preserved rather than
collapsed (a three-space whitespace token yields a five-space run once the
separators around it are added). -/
theorem spaced_plain_join :
    (∀ (ts : List MToken) (t : MToken), ts ≠ [] → t.pos0 = "補助記号" →
      composeTokens (ts ++ [t]) true = composeTokens ts true ++ " " ++ t.surface)
    ∧ composeTokens c5bTokens true = "あ     い" := by
  constructor
  · intro ts t hts hp
    unfold composeTokens
    rw [List.map_append, List.map_singleton, chunk_symbol t hp]
    simp only [if_true]
    exact sepJoin_append_last (ts.map chunkOf) t.surface (by simpa using hts)
  · decide

/-- Witness for C5 (amended): a space immediately precedes the 。 chunk. -/
theorem spaced_plain_join_witness :
    composeTokens c5aTokens true
      = composeTokens [⟨"こんにちは", "感動詞", "コンニチハ"⟩] true ++ " " ++ "。" :=
  spaced_plain_join.1 [⟨"こんにちは", "感動詞", "コンニチハ"⟩] ⟨"。", "補助記号", "*"⟩
    (by simp) rfl

/-- Counterexample to C6: a currency amount at ten to the sixteenth is not
left unmodified — the match is still replaced, and the excess high-order
digit is silently dropped (only the low four myriad groups are rendered,
giving 零円 here). -/
theorem overflow_cex :
    convert_prices_to_kanji "¥10000000000000000" = "零円"
      ∧ ¬convert_prices_to_kanji "¥10000000000000000" = "¥10000000000000000" := by
  refine ⟨by decide, by decide⟩

/-- Claim C6 (amended): for amounts at or above ten to the sixteenth the
normalizer does not leave the substring unmodified; it replaces the match
with the kanji numeral of the value modulo ten to the sixteenth (rendering
零 when every low group vanishes), silently dropping the high-order
digits, while the rest of the text is unaffected. -/
theorem overflow_truncates :
    (∀ n : Nat, num_to_kanji n = num_to_kanji (n % 10 ^ 16))
      ∧ convert_prices_to_kanji "a¥30000000000000005 b" = "a五円 b" := by
  constructor
  · intro n
    have h16 : (10 : Nat) ^ 16 = 10000000000000000 := by norm_num
    rw [h16]
    by_cases h0 : n % 10000000000000000 = 0
    · rw [h0]
      by_cases hn0 : n = 0
      · rw [hn0]
      · have hrhs : num_to_kanji 0 = digKanji 0 := rfl
        rw [hrhs]
        unfold num_to_kanji
        rw [if_neg hn0, parts_eq, ← groupsOf_mod, h0, groupsOf_zero_filter]
        rfl
    · have hn0 : n ≠ 0 := by omega
      unfold num_to_kanji
      rw [if_neg hn0, if_neg h0, parts_eq, parts_eq, groupsOf_mod]
  · decide

/-- Claim C7: a content token (neither symbol-category nor an ASCII
alphanumeric run) with the unknown-reading sentinel `*` contributes its
surface verbatim and composition continues normally over the rest of the
stream; with a real reading the chunk is the reading with every katakana
code point in ァ..ヶ shifted down by 0x60 to its hiragana counterpart. -/
theorem unknown_reading_fallback :
    (∀ t : MToken, t.pos0 ≠ "記号" → t.pos0 ≠ "補助記号" → isAlnumRun t.surface = false →
      (t.reading = "*" → chunkOf t = t.surface)
        ∧ (t.reading ≠ "*" → chunkOf t = kataToHira t.reading)
        ∧ ∀ rest : List MToken,
            composeTokens (t :: rest) false = chunkOf t ++ composeTokens rest false)
    ∧ ∀ c : Char, 'ァ' ≤ c → c ≤ 'ヶ' →
        kataToHira (String.singleton c) = String.singleton (Char.ofNat (c.toNat - 0x60)) := by
  constructor
  · intro t h1 h2 h3
    refine ⟨?_, ?_, fun rest => rfl⟩
    · intro hr
      simp [chunkOf, h1, h2, h3, hr]
    · intro hr
      simp [chunkOf, h1, h2, h3, hr]
  · intro c hc1 hc2
    simp [kataToHira, String.singleton, String.push, hc1, hc2]

/-- Witness for C7: a real reading is converted, the sentinel keeps the
surface. -/
theorem unknown_reading_fallback_witness :
    chunkOf ⟨"食べ", "動詞", "タベ"⟩ = kataToHira "タベ"
      ∧ chunkOf ⟨"ゑ", "名詞", "*"⟩ = "ゑ" :=
  ⟨(unknown_reading_fallback.1 ⟨"食べ", "動詞", "タベ"⟩ (by decide) (by decide)
      (by decide)).2.1 (by decide),
   (unknown_reading_fallback.1 ⟨"ゑ", "名詞", "*"⟩ (by decide) (by decide)
      (by decide)).1 rfl⟩

/-- Counterexample to C8: the mixed casings Vnd and vND adjacent to a
digit run are not recognized — the text passes through unchanged instead
of being replaced. -/
theorem vnd_casing_cex :
    convert_prices_to_kanji "Vnd 1000" = "Vnd 1000"
      ∧ ¬convert_prices_to_kanji "Vnd 1000" = "千ドン"
      ∧ convert_prices_to_kanji "vND 1000" = "vND 1000" := by
  refine ⟨by decide, by decide, by decide⟩

/-- Claim C8 (amended): the VND word is matched in exactly the two casings
of the alternation, all-upper VND and all-lower vnd; each of the six mixed
casings is left unchanged. -/
theorem vnd_exact_casings :
    convert_prices_to_kanji "VND 1000" = "千ドン"
      ∧ convert_prices_to_kanji "vnd 1000" = "千ドン"
      ∧ convert_prices_to_kanji "Vnd 1000" = "Vnd 1000"
      ∧ convert_prices_to_kanji "vND 1000" = "vND 1000"
      ∧ convert_prices_to_kanji "VNd 1000" = "VNd 1000"
      ∧ convert_prices_to_kanji "vNd 1000" = "vNd 1000"
      ∧ convert_prices_to_kanji "VnD 1000" = "VnD 1000"
      ∧ convert_prices_to_kanji "vnD 1000" = "vnD 1000" := by
  refine ⟨by decide, by decide, by decide, by decide, by decide, by decide, by decide,
    by decide⟩

/-- Counterexample to C9: under a contract-satisfying tokenizer that
tokenizes whitespace separately, the spaced composition is not idempotent
on a string already made of hiragana and collapsed whitespace: each
application inserts additional spaces around the whitespace chunk. -/
theorem idempotence_cex :
    to_hiragana exTokenize "あ い" true = "あ   い"
      ∧ ¬to_hiragana exTokenize (to_hiragana exTokenize "あ い" true) true
          = to_hiragana exTokenize "あ い" true
      ∧ ("あ い".data.all fun c => decide (('ぁ' ≤ c ∧ c ≤ 'ゖ') ∨ c = ' ')) = true := by
  refine ⟨by decide, by decide, by decide⟩

/-- Claim C9 (amended): in compact mode the composition is the identity —
hence idempotent — on any digit-free text whose tokens cover it and whose
chunks reproduce their surfaces (symbols, ASCII runs, unknown readings,
and hiragana whose reading is its katakana form); in spaced mode
idempotence fails when whitespace is tokenized separately, because the
join inserts a fresh space on both sides of every whitespace chunk. -/
theorem idempotent_on_plain :
    ∀ (tokenize : String → List MToken) (x : String),
      (∀ c ∈ x.data, c.isDigit = false) →
      concatAll ((tokenize x).map MToken.surface) = x →
      (∀ t ∈ tokenize x, chunkOf t = t.surface) →
      to_hiragana tokenize x false = x
        ∧ to_hiragana tokenize (to_hiragana tokenize x false) false
            = to_hiragana tokenize x false := by
  intro tk x hdig hcov hch
  have hx : to_hiragana tk x false = x := by
    unfold to_hiragana
    rw [convert_prices_id x hdig]
    show concatAll ((tk x).map chunkOf) = x
    rw [mapCongrOn (tk x) chunkOf MToken.surface hch]
    exact hcov
  refine ⟨hx, ?_⟩
  rw [hx]
  exact hx

/-- Witness for C9 (amended): the compact composition is the identity on
"あ い" under the exhibited tokenizer, hence idempotent there. -/
theorem idempotent_on_plain_witness :
    to_hiragana exTokenize "あ い" false = "あ い"
      ∧ to_hiragana exTokenize (to_hiragana exTokenize "あ い" false) false
          = to_hiragana exTokenize "あ い" false :=
  idempotent_on_plain exTokenize "あ い" (by decide) (by decide) (by decide)

/-- Claim C10: the reply transport sends exactly one message whose text is
the first 4900 code points of the composed reply: a prefix of the input of
length at most 4900, equal to the whole input when it is short enough —
never rejected, never split into several messages. -/
theorem reply_truncation :
    ∀ text : String,
      reply_messages text = [pySlice text 4900]
        ∧ (reply_messages text).length = 1
        ∧ (pySlice text 4900).data = text.data.take 4900
        ∧ (pySlice text 4900).data.length ≤ 4900
        ∧ List.IsPrefix (pySlice text 4900).data text.data
        ∧ (text.data.length ≤ 4900 → pySlice text 4900 = text) := by
  intro t
  refine ⟨rfl, rfl, rfl, ?_, ?_, ?_⟩
  · show (t.data.take 4900).length ≤ 4900
    rw [List.length_take]
    exact Nat.min_le_left _ _
  · exact ⟨t.data.drop 4900, List.take_append_drop 4900 t.data⟩
  · intro h
    unfold pySlice
    rw [List.take_of_length_le h]

/-- Witness for C10: a short reply is passed through whole. -/
theorem reply_truncation_witness :
    ("ok".data.length ≤ 4900) ∧ pySlice "ok" 4900 = "ok" :=
  ⟨by decide, (reply_truncation "ok").2.2.2.2.2 (by decide)⟩
